import Mathlib

/-!
Verification of the conversion-and-trial pipeline of the coin-selection
example harness (examples/bitcoin_crate/src/main.rs).

The source is shallowly embedded:
* machine integers (u32/u64) become Nat with an explicit `% 2^w` at the
  places where the source can overflow;
* the external bitcoin-crate constructors (hex parsing, amount parsing,
  wire serialization size) are modelled from the spec's boundary
  description, at the granularity the harness observes;
* the random source `thread_rng` becomes explicit streams: one stream of
  naturals for the integer `gen_range` calls and one stream of rationals
  for the floating `gen_range` call, indexed by draw position;
* the unbounded retry loop of `create_outputgroup` is given explicit fuel
  and returns `none` if the fuel runs out, so every definition stays total
  and executable.
-/

/-! ## Hex parsing (modelled external constructors) -/

/-- Value of one hexadecimal digit, or `none` for a non-hex character. -/
def hexDigit (c : Char) : Option Nat :=
  if '0' ≤ c ∧ c ≤ '9' then some (c.toNat - '0'.toNat)
  else if 'a' ≤ c ∧ c ≤ 'f' then some (c.toNat - 'a'.toNat + 10)
  else if 'A' ≤ c ∧ c ≤ 'F' then some (c.toNat - 'A'.toNat + 10)
  else none

/-- Decode a list of hex characters two at a time into bytes; fails on a
non-hex character and on odd length (the trailing lone character). -/
def hexPairs : List Char → Option (List Nat)
  | [] => some []
  | [_] => none
  | c1 :: c2 :: rest =>
    match hexDigit c1, hexDigit c2, hexPairs rest with
    | some h, some l, some bs => some ((16 * h + l) :: bs)
    | _, _, _ => none

/-- Modelled from the spec: the external even-length hex-to-bytes
constructor used by ScriptBuf::from_hex — script fields must be valid hex
of even length, decoding fails otherwise. -/
def hexDecode (s : String) : Option (List Nat) := hexPairs s.data

/-- Modelled from the spec: the external transaction-id constructor
Txid::from_str — a fixed-length (32-byte, 64 hex character) hex
identifier.  Byte order of the stored id is irrelevant to the harness. -/
def txid_from_str (s : String) : Option (List Nat) :=
  match hexDecode s with
  | some b => if b.length = 32 then some b else none
  | none => none

/-- Accumulator pass parsing hex characters into a natural number. -/
def parseHexNatGo : List Char → Nat → Option Nat
  | [], acc => some acc
  | c :: rest, acc =>
    match hexDigit c with
    | none => none
    | some d => parseHexNatGo rest (acc * 16 + d)

/-- Drop an optional 0x / 0X prefix from a hex numeral string. -/
def stripHexPrefix (s : String) : List Char :=
  match s.data with
  | '0' :: 'x' :: rest => rest
  | '0' :: 'X' :: rest => rest
  | l => l

/-- Modelled from the spec: the external Sequence::from_hex constructor —
sequence numbers must be valid hex-encoded 32-bit values. -/
def sequence_from_hex (s : String) : Option Nat :=
  match stripHexPrefix s with
  | [] => none
  | cs =>
    match parseHexNatGo cs 0 with
    | none => none
    | some n => if n < 2 ^ 32 then some n else none

/-! ## Amounts (modelled external constructor) -/

/-- Modelled from the spec: the external Amount::from_btc constructor —
an amount given in whole-currency units must be non-negative and convert
exactly to an integer number of minor units (satoshis, 10^8 per unit)
without overflowing the 64-bit integer domain. -/
def Amount_from_btc (d : ℚ) : Option Nat :=
  if 0 ≤ d ∧ (d * 100000000).den = 1 ∧ d * 100000000 < 2 ^ 64 then
    some (d * 100000000).num.toNat
  else none

/-- Modelled from the spec: re-encoding a minor-unit integer amount back
into whole-currency units. -/
def Amount_to_btc (n : Nat) : ℚ := (n : ℚ) / 100000000

/-! ## Decoded transactions (data model) -/

/-- One transaction input, as reconstructed by the decoder. -/
structure TxIn where
  previous_txid : List Nat
  previous_vout : Nat
  script_sig : List Nat
  sequence : Nat
  witness : List (List Nat)
deriving DecidableEq

/-- One transaction output: value in minor units (u64 satoshis) and the
locking-script bytes. -/
structure TxOut where
  value : Nat
  script_pubkey : List Nat
deriving DecidableEq

/-- A reconstructed transaction (version and lock_time are the numeric
values the source hard-codes via Version::TWO and LockTime::ZERO). -/
structure Transaction where
  version : Nat
  lock_time : Nat
  input : List TxIn
  output : List TxOut
deriving DecidableEq

/-- Raw input record of the JSON file (post-serde, which is external).
Witness entries are kept as the raw byte strings the source obtains by
reinterpreting each JSON string as bytes. -/
structure TxInJson where
  txid : String
  vout : Nat
  script_sig : String
  sequence : String
  witness : List (List Nat)
deriving DecidableEq

/-- Raw output record of the JSON file: the amount is the JSON number
(an f64, embedded as the exact rational it denotes) and the hex
locking-script string. -/
structure TxOutJson where
  value : ℚ
  script_pubkey : String
deriving DecidableEq

/-- Raw transaction record of the JSON file. -/
structure TransactionJson where
  inputs : List TxInJson
  outputs : List TxOutJson
deriving DecidableEq

/-- Errors propagated by json_to_transaction via the ? operator.  Each
constructor mirrors the error value of the failing external constructor:
it records which constructor failed and the offending value, exactly as
the boxed dyn Error does.  Both script fields fail through the same
hex-to-bytes constructor, hence share the hexToBytes constructor, and no
variant carries the record index. -/
inductive DecodeErr where
  | hexToArray (s : String)
  | hexToBytes (s : String)
  | seqParse (s : String)
  | amountParse (v : ℚ)
deriving DecidableEq

/-- Decode one JSON input record (main.rs lines 65-80): txid, then
script_sig, then sequence; the witness strings are reinterpreted as
bytes without any hex decoding and cannot fail. -/
def decodeTxIn (i : TxInJson) : Except DecodeErr TxIn :=
  match txid_from_str i.txid with
  | none => .error (.hexToArray i.txid)
  | some txidBytes =>
    match hexDecode i.script_sig with
    | none => .error (.hexToBytes i.script_sig)
    | some ss =>
      match sequence_from_hex i.sequence with
      | none => .error (.seqParse i.sequence)
      | some sq =>
        .ok { previous_txid := txidBytes, previous_vout := i.vout,
              script_sig := ss, sequence := sq, witness := i.witness }

/-- Decode all input records in order, stopping at the first failure. -/
def decodeInputs : List TxInJson → Except DecodeErr (List TxIn)
  | [] => .ok []
  | i :: rest =>
    match decodeTxIn i with
    | .error e => .error e
    | .ok a =>
      match decodeInputs rest with
      | .error e => .error e
      | .ok tl => .ok (a :: tl)

/-- Decode one JSON output record (main.rs lines 83-90): amount first,
then the locking script. -/
def decodeTxOut (o : TxOutJson) : Except DecodeErr TxOut :=
  match Amount_from_btc o.value with
  | none => .error (.amountParse o.value)
  | some sats =>
    match hexDecode o.script_pubkey with
    | none => .error (.hexToBytes o.script_pubkey)
    | some spk => .ok { value := sats, script_pubkey := spk }

/-- Decode all output records in order, stopping at the first failure. -/
def decodeOutputs : List TxOutJson → Except DecodeErr (List TxOut)
  | [] => .ok []
  | o :: rest =>
    match decodeTxOut o with
    | .error e => .error e
    | .ok a =>
      match decodeOutputs rest with
      | .error e => .error e
      | .ok tl => .ok (a :: tl)

/-- json_to_transaction (main.rs lines 58-101): decode each record's
inputs, then its outputs, and build the transaction with version fixed
to 2 and lock time fixed to 0; the first invalid field aborts the whole
batch through the propagated error. -/
def json_to_transaction : List TransactionJson → Except DecodeErr (List Transaction)
  | [] => .ok []
  | t :: rest =>
    match decodeInputs t.inputs with
    | .error e => .error e
    | .ok ins =>
      match decodeOutputs t.outputs with
      | .error e => .error e
      | .ok outs =>
        match json_to_transaction rest with
        | .error e => .error e
        | .ok txs =>
          .ok ({ version := 2, lock_time := 0, input := ins, output := outs } :: txs)

/-! ## Serialized size (modelled external collaborator) -/

/-- Length in bytes of the Bitcoin variable-length integer encoding. -/
def varintLen (n : Nat) : Nat :=
  if n < 253 then 1 else if n < 65536 then 3 else if n < 4294967296 then 5 else 9

/-- Serialized byte size of one input (outpoint, script, sequence). -/
def txInSize (i : TxIn) : Nat :=
  32 + 4 + varintLen i.script_sig.length + i.script_sig.length + 4

/-- Serialized byte size of one output (value, script). -/
def txOutSize (o : TxOut) : Nat :=
  8 + varintLen o.script_pubkey.length + o.script_pubkey.length

/-- Serialized byte size of one input's witness stack. -/
def witnessSize (w : List (List Nat)) : Nat :=
  varintLen w.length + (w.map (fun item => varintLen item.length + item.length)).sum

/-- Modelled from the spec: Transaction::total_size of the external
bitcoin crate — the size in bytes of the transaction serialized in its
canonical wire form (segwit framing with marker and flag bytes exactly
when some input carries a non-empty witness). -/
def total_size (tx : Transaction) : Nat :=
  let base := 4 + varintLen tx.input.length + (tx.input.map txInSize).sum
    + varintLen tx.output.length + (tx.output.map txOutSize).sum + 4
  if tx.input.any (fun i => ¬ i.witness.isEmpty) then
    base + 2 + (tx.input.map (fun i => witnessSize i.witness)).sum
  else base

/-! ## Selectable units: create_outputgroup -/

/-- OutputGroup of the rust_coinselect types module, as consumed by the
harness: value in satoshis (u64), weight in bytes (u32), number of
inputs, and the optional tie-break ordinal. -/
structure OutputGroup where
  value : Nat
  weight : Nat
  input_count : Nat
  creation_sequence : Option Nat
deriving DecidableEq

/-- Integer gen_range of the rand crate: a draw r is mapped into the
half-open range from lo to hi. -/
def genRange (r lo hi : Nat) : Nat := lo + r % (hi - lo)

/-- The retry loop of create_outputgroup (main.rs lines 113-118): draw
from gen_range(0..total) until the draw is not yet used.  The source
loops unboundedly; here the loop carries fuel and fails with `none` when
the fuel is exhausted.  Returns the fresh ordinal and the next unread
stream position. -/
def pickFresh (stream : Nat → Nat) (total : Nat) (used : List Nat) :
    Nat → Nat → Option (Nat × Nat)
  | 0, _ => none
  | fuel + 1, i =>
    let c := genRange (stream i) 0 total
    if c ∈ used then pickFresh stream total used fuel (i + 1) else some (c, i + 1)

/-- The OutputGroup built from one transaction (main.rs lines 119-124):
value is the u64 sum of the output satoshi amounts (wrapping modulo
2^64, as the unchecked sum does), weight is total_size cast to u32,
input_count is the number of inputs. -/
def outputGroupOf (tx : Transaction) (seq : Nat) : OutputGroup :=
  { value := (tx.output.map TxOut.value).sum % 2 ^ 64
    weight := total_size tx % 2 ^ 32
    input_count := tx.input.length
    creation_sequence := some seq }

/-- Main loop of create_outputgroup: one OutputGroup per transaction, in
order, threading the set of used ordinals and the stream position. -/
def create_outputgroup_go (stream : Nat → Nat) (total fuel : Nat) :
    List Transaction → List Nat → Nat → Option (List OutputGroup)
  | [], _, _ => some []
  | tx :: rest, used, i =>
    match pickFresh stream total used fuel i with
    | none => none
    | some (c, j) =>
      match create_outputgroup_go stream total fuel rest (c :: used) j with
      | none => none
      | some gs => some (outputGroupOf tx c :: gs)

/-- create_outputgroup (main.rs lines 103-128): total is the batch size
captured before the loop. -/
def create_outputgroup (stream : Nat → Nat) (fuel : Nat)
    (txs : List Transaction) : Option (List OutputGroup) :=
  create_outputgroup_go stream txs.length fuel txs [] 0

/-! ## Selection configurations: create_select_options -/

/-- Structural base-2 logarithm with fuel (kept executable in the kernel;
agrees with the mathematical floor of log2 on every positive input the
file uses). -/
def log2Fuel : Nat → Nat → Nat
  | 0, _ => 0
  | fuel + 1, n => if n < 2 then 0 else log2Fuel fuel (n / 2) + 1

/-- Floor of the base-2 logarithm of a natural number. -/
def natLog2 (n : Nat) : Nat := log2Fuel n n

/-- Round a rational to the nearest integer, ties to even. -/
def roundHalfEven (r : ℚ) : ℤ :=
  if Int.fract r < 1 / 2 then ⌊r⌋
  else if 1 / 2 < Int.fract r then ⌊r⌋ + 1
  else if ⌊r⌋ % 2 = 0 then ⌊r⌋ else ⌊r⌋ + 1

/-- Modelled from the spec boundary: the `as f32` cast applied to the
f64 fee-rate draw — IEEE round to nearest even onto the 24-bit
significand grid of f32.  Modelled for operands of magnitude at least 1
(every draw cast in the source lies in a range starting at 1); below 1
the operand is returned unchanged. -/
def f32Round (q : ℚ) : ℚ :=
  if q < 1 then q
  else
    let e := natLog2 ⌊q⌋.toNat
    (roundHalfEven (q * 2 ^ ((23 : ℤ) - e)) : ℚ) * (2 : ℚ) ^ ((e : ℤ) - 23)

/-- Floating gen_range of the rand crate: a draw q is mapped into the
half-open rational range from lo to hi via its fractional part. -/
def genRangeQ (r lo hi : ℚ) : ℚ := lo + Int.fract r * (hi - lo)

/-- ExcessStrategy of the rust_coinselect types module. -/
inductive ExcessStrategy where
  | ToChange
  | ToFee
  | ToRecipient
deriving DecidableEq, Inhabited

/-- CoinSelectionOpt of the rust_coinselect types module: u64 and u32
fields as Nat, f32 fields as rationals. -/
structure CoinSelectionOpt where
  target_value : Nat
  target_feerate : ℚ
  long_term_feerate : Option ℚ
  min_absolute_fee : Nat
  base_weight : Nat
  change_weight : Nat
  change_cost : Nat
  avg_input_weight : Nat
  avg_output_weight : Nat
  min_change_value : Nat
  excess_strategy : ExcessStrategy
deriving DecidableEq, Inhabited

/-- create_select_options (main.rs lines 130-157): five configurations,
each built from eleven fresh draws of the random source (ten integer
draws and one floating draw), in the source's evaluation order: the
excess strategy first, then the struct fields top to bottom.  Config i
reads integer draws 10i..10i+9 and floating draw i. -/
def create_select_options (rI : Nat → Nat) (rF : Nat → ℚ) : List CoinSelectionOpt :=
  (List.range 5).map (fun i =>
    { target_value := genRange (rI (10 * i + 1)) 40000 5000000000
      target_feerate := f32Round (genRangeQ (rF i) 1 5)
      long_term_feerate := some ((genRange (rI (10 * i + 2)) 1 10 : Nat) : ℚ)
      min_absolute_fee := genRange (rI (10 * i + 3)) 1 20
      base_weight := genRange (rI (10 * i + 4)) 1 30
      change_weight := genRange (rI (10 * i + 5)) 5 30
      change_cost := genRange (rI (10 * i + 6)) 1 20
      avg_input_weight := genRange (rI (10 * i + 7)) 1 10
      avg_output_weight := genRange (rI (10 * i + 8)) 1 10
      min_change_value := genRange (rI (10 * i + 9)) 100 1000
      excess_strategy :=
        match rI (10 * i) % 3 with
        | 0 => ExcessStrategy.ToChange
        | 1 => ExcessStrategy.ToFee
        | _ => ExcessStrategy.ToRecipient })

/-! ## Trial runner: perform_select_coin -/

/-- Successful outcome of the external select_coin collaborator:
selected indices plus the scalar waste metric. -/
structure SelectionOutput where
  selected_inputs : List Nat
  waste : Int
deriving DecidableEq, Inhabited

/-- Modelled from the spec: typed failure reasons of the external
select_coin collaborator (insufficient funds, no viable subset). -/
inductive SelectionError where
  | InsufficientFunds
  | NoSolutionFound
deriving DecidableEq, Inhabited

/-- Abstract signature of the external selection function. -/
def SelectFn : Type :=
  List OutputGroup → CoinSelectionOpt → Except SelectionError SelectionOutput

/-- The trial loop of perform_select_coin (main.rs lines 173-189): walk
the configuration list with the take(5) counter; each iteration reports
the configuration together with its outcome — the match arms treat Ok
and Err alike and both continue the loop. -/
def trialLoop (sel : SelectFn) (utxos : List OutputGroup) :
    List CoinSelectionOpt → Nat →
    List (CoinSelectionOpt × Except SelectionError SelectionOutput)
  | [], _ => []
  | _ :: _, 0 => []
  | o :: rest, n + 1 =>
    match sel utxos o with
    | .ok s => (o, .ok s) :: trialLoop sel utxos rest n
    | .error e => (o, .error e) :: trialLoop sel utxos rest n

/-- perform_select_coin (main.rs lines 159-190), abstracted to the trace
of per-configuration reports it prints. -/
def perform_select_coin (sel : SelectFn) (utxos : List OutputGroup)
    (opts : List CoinSelectionOpt) :
    List (CoinSelectionOpt × Except SelectionError SelectionOutput) :=
  trialLoop sel utxos opts 5

/-- main (main.rs lines 192-228) from the point where the file content
has been read and parsed by serde: decode, build the output groups,
generate the options, run the trials.  Returns `none` when a fatal error
aborts the run before any trial, and the trial trace otherwise. -/
def mainRun (stream : Nat → Nat) (fuel : Nat) (rI : Nat → Nat) (rF : Nat → ℚ)
    (sel : SelectFn) (records : List TransactionJson) :
    Option (List (CoinSelectionOpt × Except SelectionError SelectionOutput)) :=
  match json_to_transaction records with
  | .error _ => none
  | .ok txs =>
    match create_outputgroup stream fuel txs with
    | none => none
    | some utxos => some (perform_select_coin sel utxos (create_select_options rI rF))

/-! ## Concrete fixtures used by witnesses and counterexamples -/

/-- Identity stream of naturals, a concrete random source. -/
def rngId : Nat → Nat := fun n => n

/-- Constant-zero stream of naturals. -/
def rngZero : Nat → Nat := fun _ => 0

/-- Constant-zero stream of rationals. -/
def rfZero : Nat → ℚ := fun _ => 0

/-- Adversarial float stream: every draw has fractional part 1 - 2^-32,
so gen_range(1.0..5.0) yields 5 - 2^-30, an f64 inside the range whose
f32 rounding lands exactly on 5. -/
def rfCe : Nat → ℚ := fun _ => (4294967295 : ℚ) / 4294967296

/-- Stub selection collaborator that always fails. -/
def selStub : SelectFn := fun _ _ => .error .InsufficientFunds

/-- A transaction with no inputs and no outputs. -/
def emptyTx : Transaction := { version := 2, lock_time := 0, input := [], output := [] }

/-- A transaction with a single one-satoshi output. -/
def oneSatTx : Transaction :=
  { version := 2, lock_time := 0, input := [],
    output := [{ value := 1, script_pubkey := [] }] }

/-- A transaction whose output amounts sum to 2^64 + 5, past the u64 domain. -/
def wrapTx : Transaction :=
  { version := 2, lock_time := 0, input := [],
    output := [{ value := 2 ^ 63, script_pubkey := [] },
               { value := 2 ^ 63, script_pubkey := [] },
               { value := 5, script_pubkey := [] }] }

/-- Sixty-four zero hex characters: a well-formed transaction id. -/
def zeros64 : String :=
  "0000000000000000000000000000000000000000000000000000000000000000"

/-- A structurally valid record with no inputs and no outputs. -/
def goodRec : TransactionJson := { inputs := [], outputs := [] }

/-- A record whose input unlocking script has odd hex length. -/
def badSigRec : TransactionJson :=
  { inputs := [{ txid := zeros64, vout := 0, script_sig := "abc",
                 sequence := "ffffffff", witness := [] }],
    outputs := [] }

/-- A record whose output locking script has odd hex length. -/
def badSpkRec : TransactionJson :=
  { inputs := [], outputs := [{ value := 0, script_pubkey := "abc" }] }

/-- The whole-unit amount that converts exactly to 2^63 satoshis. -/
def ovBtc : ℚ := (9223372036854775808 : ℚ) / 100000000

/-- A record with two outputs of 2^63 satoshis each: individually inside
the u64 domain, jointly summing to 2^64. -/
def ovRec : TransactionJson :=
  { inputs := [],
    outputs := [{ value := ovBtc, script_pubkey := "" },
                { value := ovBtc, script_pubkey := "" }] }

/-- A record with outputs of 2^63, 2^63 and 5 satoshis: decodable, with
an output sum of 2^64 + 5 that exceeds the u64 domain. -/
def wrapRec : TransactionJson :=
  { inputs := [],
    outputs := [{ value := ovBtc, script_pubkey := "" },
                { value := ovBtc, script_pubkey := "" },
                { value := (5 : ℚ) / 100000000, script_pubkey := "" }] }

/-- The decoded form of ovRec. -/
def ovTx : Transaction :=
  { version := 2, lock_time := 0, input := [],
    output := [{ value := 2 ^ 63, script_pubkey := [] },
               { value := 2 ^ 63, script_pubkey := [] }] }

/-- A fully valid record exercising every decoded field, witness included. -/
def wRec : TransactionJson :=
  { inputs := [{ txid := zeros64, vout := 0, script_sig := "51",
                 sequence := "ffffffff", witness := [[0, 1, 2]] }],
    outputs := [{ value := (1 : ℚ) / 2, script_pubkey := "51" }] }

/-- The decoded form of wRec. -/
def wTx : Transaction :=
  { version := 2, lock_time := 0,
    input := [{ previous_txid := List.replicate 32 0, previous_vout := 0,
                script_sig := [81], sequence := 4294967295,
                witness := [[0, 1, 2]] }],
    output := [{ value := 50000000, script_pubkey := [81] }] }

/-! ## Helper lemmas -/

/-- The trial loop maps the selection function over the taken prefix:
each report is computed from its own configuration alone, whether or not
other configurations fail. -/
theorem trialLoop_eq_take (sel : SelectFn) (utxos : List OutputGroup) :
    ∀ (opts : List CoinSelectionOpt) (n : Nat),
      trialLoop sel utxos opts n = (opts.take n).map (fun o => (o, sel utxos o)) := by
  intro opts
  induction opts with
  | nil => intro n; cases n <;> simp [trialLoop]
  | cons o rest ih =>
    intro n
    cases n with
    | zero => simp [trialLoop]
    | succ m =>
      cases hs : sel utxos o <;> simp [trialLoop, hs, ih m]

/-- A successful pickFresh draw is fresh and lies below total. -/
theorem pickFresh_mem_lt {stream : Nat → Nat} {total : Nat} {used : List Nat}
    (ht : 0 < total) :
    ∀ fuel i c j, pickFresh stream total used fuel i = some (c, j) →
      c ∉ used ∧ c < total := by
  intro fuel
  induction fuel with
  | zero => intro i c j h; simp [pickFresh] at h
  | succ n ih =>
    intro i c j h
    simp only [pickFresh] at h
    by_cases hc : genRange (stream i) 0 total ∈ used
    · rw [if_pos hc] at h
      exact ih _ _ _ h
    · rw [if_neg hc] at h
      simp only [Option.some.injEq, Prod.mk.injEq] at h
      obtain ⟨rfl, rfl⟩ := h
      refine ⟨hc, ?_⟩
      have := Nat.mod_lt (stream i) ht
      simp [genRange]
      omega

/-- Structural invariant of the create_outputgroup loop: one group per
transaction, ordinals fresh with respect to the carried set, below the
batch size, pairwise distinct, and each group positionally built from
its own transaction. -/
theorem create_outputgroup_go_spec (stream : Nat → Nat) (total fuel : Nat)
    (ht : 0 < total) :
    ∀ txs used i gs, create_outputgroup_go stream total fuel txs used i = some gs →
      gs.length = txs.length ∧
      (∀ g ∈ gs, ∃ c, g.creation_sequence = some c ∧ c < total ∧ c ∉ used) ∧
      (gs.map OutputGroup.creation_sequence).Nodup ∧
      ∀ k, ∀ hk : k < gs.length, ∀ hk2 : k < txs.length,
        ∃ c, gs.get ⟨k, hk⟩ = outputGroupOf (txs.get ⟨k, hk2⟩) c := by
  intro txs
  induction txs with
  | nil =>
    intro used i gs h
    simp only [create_outputgroup_go, Option.some.injEq] at h
    subst h
    simp
  | cons tx rest ih =>
    intro used i gs h
    simp only [create_outputgroup_go] at h
    cases hp : pickFresh stream total used fuel i with
    | none => rw [hp] at h; exact absurd h (by simp)
    | some cj =>
      obtain ⟨c, j⟩ := cj
      rw [hp] at h
      dsimp only at h
      cases hr : create_outputgroup_go stream total fuel rest (c :: used) j with
      | none => rw [hr] at h; exact absurd h (by simp)
      | some gs' =>
        rw [hr] at h
        simp only [Option.some.injEq] at h
        subst h
        obtain ⟨hfresh, hlt⟩ := pickFresh_mem_lt ht fuel i c j hp
        obtain ⟨ihlen, ihmem, ihnd, ihpos⟩ := ih (c :: used) j gs' hr
        refine ⟨by simp [ihlen], ?_, ?_, ?_⟩
        · intro g hg
          rcases List.mem_cons.mp hg with rfl | hg'
          · exact ⟨c, rfl, hlt, hfresh⟩
          · obtain ⟨c', hc', hlt', hnot⟩ := ihmem g hg'
            exact ⟨c', hc', hlt', fun hmem => hnot (List.mem_cons_of_mem _ hmem)⟩
        · rw [List.map_cons, List.nodup_cons]
          refine ⟨?_, ihnd⟩
          intro hmem
          obtain ⟨g, hg, hgc⟩ := List.mem_map.mp hmem
          obtain ⟨c', hc', _, hnot⟩ := ihmem g hg
          rw [hc'] at hgc
          simp only [outputGroupOf, Option.some.injEq] at hgc
          subst hgc
          exact hnot (List.mem_cons_self _ _)
        · intro k hk hk2
          cases k with
          | zero => exact ⟨c, rfl⟩
          | succ m =>
            obtain ⟨c', hc'⟩ := ihpos m (by simpa using hk) (by simpa using hk2)
            exact ⟨c', by simpa using hc'⟩

/-- Evaluation rule for the modelled amount constructor: when the given
whole-unit amount times 10^8 is exactly the natural number n below 2^64,
decoding yields n satoshis. -/
theorem Amount_from_btc_eval (d : ℚ) (n : Nat) (h : d * 100000000 = (n : ℚ))
    (hn : n < 2 ^ 64) : Amount_from_btc d = some n := by
  have h0 : 0 ≤ d := by
    by_contra hneg
    push_neg at hneg
    have hlt : d * 100000000 < 0 := mul_neg_of_neg_of_pos hneg (by norm_num)
    rw [h] at hlt
    exact absurd hlt (not_lt.mpr (by positivity))
  unfold Amount_from_btc
  rw [if_pos]
  · rw [h]
    simp
  · refine ⟨h0, ?_, ?_⟩
    · rw [h]
      exact Rat.den_natCast n
    · rw [h]
      exact_mod_cast hn

/-- Every transaction produced by the decoder carries version 2 and lock
time 0. -/
theorem json_to_transaction_fixed_form :
    ∀ (records : List TransactionJson) (txs : List Transaction),
      json_to_transaction records = .ok txs →
      ∀ tx ∈ txs, tx.version = 2 ∧ tx.lock_time = 0 := by
  intro records
  induction records with
  | nil =>
    intro txs h
    simp only [json_to_transaction, Except.ok.injEq] at h
    subst h
    simp
  | cons r rest ih =>
    intro txs h
    simp only [json_to_transaction] at h
    cases hi : decodeInputs r.inputs with
    | error e => rw [hi] at h; exact absurd h (by simp)
    | ok ins =>
      rw [hi] at h
      dsimp only at h
      cases ho : decodeOutputs r.outputs with
      | error e => rw [ho] at h; exact absurd h (by simp)
      | ok outs =>
        rw [ho] at h
        dsimp only at h
        cases hr : json_to_transaction rest with
        | error e => rw [hr] at h; exact absurd h (by simp)
        | ok txs' =>
          rw [hr] at h
          simp only [Except.ok.injEq] at h
          subst h
          intro tx htx
          rcases List.mem_cons.mp htx with rfl | htx'
          · exact ⟨rfl, rfl⟩
          · exact ih txs' hr tx htx'

/-! ## Claim theorems -/

/-- C1: whenever create_outputgroup completes on a batch of N decoded
transactions, it returns one OutputGroup per transaction and the
assigned creation_sequence ordinals are pairwise distinct values, each
lying in the half-open range from 0 to N. -/
theorem create_outputgroup_unique_ordinals (stream : Nat → Nat) (fuel : Nat)
    (txs : List Transaction) (gs : List OutputGroup)
    (h : create_outputgroup stream fuel txs = some gs) :
    gs.length = txs.length ∧
    (gs.map OutputGroup.creation_sequence).Nodup ∧
    ∀ g ∈ gs, ∃ c, g.creation_sequence = some c ∧ c < txs.length := by
  cases txs with
  | nil =>
    simp only [create_outputgroup, create_outputgroup_go, Option.some.injEq] at h
    subst h
    simp
  | cons tx rest =>
    obtain ⟨h1, h2, h3, _⟩ :=
      create_outputgroup_go_spec stream (tx :: rest).length fuel (by simp) _ _ _ _ h
    exact ⟨h1, h3, fun g hg => (h2 g hg).imp fun c hc => ⟨hc.1, hc.2.1⟩⟩

/-- Witness for C1: a concrete two-transaction batch on which the
builder succeeds, with distinct ordinals 0 and 1. -/
theorem create_outputgroup_unique_ordinals_witness :
    create_outputgroup rngId 4 [emptyTx, emptyTx]
      = some [outputGroupOf emptyTx 0, outputGroupOf emptyTx 1] ∧
    ([outputGroupOf emptyTx 0, outputGroupOf emptyTx 1].map
      OutputGroup.creation_sequence).Nodup :=
  ⟨rfl, (create_outputgroup_unique_ordinals rngId 4 [emptyTx, emptyTx] _ rfl).2.1⟩

/-- C4: the trial runner maps the selection function independently over
the configurations it iterates (the take-5 prefix), reporting one
outcome per configuration; an error outcome at one position leaves
every later report in place, so a failure never aborts the remaining
trials. -/
theorem perform_select_coin_continues (sel : SelectFn) (utxos : List OutputGroup)
    (opts : List CoinSelectionOpt) :
    perform_select_coin sel utxos opts = (opts.take 5).map (fun o => (o, sel utxos o)) :=
  trialLoop_eq_take sel utxos opts 5

/-- C9: the trial runner consults only the first five configurations:
its trace lists exactly the take-5 prefix of the configuration list,
and the result is unchanged when the configurations past index 4 are
dropped — they are never invoked. -/
theorem perform_select_coin_first_five_only (sel : SelectFn) (utxos : List OutputGroup)
    (opts : List CoinSelectionOpt) :
    (perform_select_coin sel utxos opts).map Prod.fst = opts.take 5 ∧
    perform_select_coin sel utxos opts = perform_select_coin sel utxos (opts.take 5) := by
  constructor
  · rw [perform_select_coin, trialLoop_eq_take, List.map_map]
    have hid : (Prod.fst ∘ fun o => (o, sel utxos o)) = id := rfl
    rw [hid, List.map_id]
  · rw [perform_select_coin, perform_select_coin, trialLoop_eq_take, trialLoop_eq_take,
      List.take_take]
    norm_num

/-- C2 (amended): the value of the k-th OutputGroup equals the exact sum
of the k-th transaction's output amounts in satoshis whenever that sum
fits the 64-bit domain; past 2^64 the unchecked u64 sum wraps, see the
counterexample. -/
theorem output_value_exact_when_fits (stream : Nat → Nat) (fuel : Nat)
    (txs : List Transaction) (gs : List OutputGroup) (k : Nat)
    (h : create_outputgroup stream fuel txs = some gs)
    (hk : k < gs.length) (hk2 : k < txs.length)
    (hfit : ((txs.get ⟨k, hk2⟩).output.map TxOut.value).sum < 2 ^ 64) :
    (gs.get ⟨k, hk⟩).value = ((txs.get ⟨k, hk2⟩).output.map TxOut.value).sum := by
  cases txs with
  | nil => exact absurd hk2 (by simp)
  | cons tx rest =>
    obtain ⟨_, _, _, hpos⟩ :=
      create_outputgroup_go_spec stream (tx :: rest).length fuel (by simp) _ _ _ _ h
    obtain ⟨c, hc⟩ := hpos k hk hk2
    rw [hc]
    simp only [outputGroupOf]
    exact Nat.mod_eq_of_lt hfit

/-- Witness for C2: on a one-satoshi output the builder stores exactly 1. -/
theorem output_value_exact_when_fits_witness :
    (outputGroupOf oneSatTx 0).value = 1 :=
  output_value_exact_when_fits rngId 4 [oneSatTx] [outputGroupOf oneSatTx 0] 0 rfl
    (by decide) (by decide) (by decide)

/-- C2 falsified as stated: a decodable transaction whose outputs sum to
2^64 + 5 is accepted by the builder, which stores value 5 — the wrapped
u64 sum — instead of the exact sum. -/
theorem output_value_wraps :
    json_to_transaction [wrapRec] = .ok [wrapTx] ∧
    create_outputgroup rngId 4 [wrapTx] = some [outputGroupOf wrapTx 0] ∧
    (outputGroupOf wrapTx 0).value = 5 ∧
    (wrapTx.output.map TxOut.value).sum = 2 ^ 64 + 5 ∧
    (outputGroupOf wrapTx 0).value ≠ (wrapTx.output.map TxOut.value).sum := by
  have ha : Amount_from_btc ovBtc = some (2 ^ 63) :=
    Amount_from_btc_eval _ _ (by norm_num [ovBtc]) (by norm_num)
  have ha5 : Amount_from_btc ((5 : ℚ) / 100000000) = some 5 :=
    Amount_from_btc_eval _ _ (by norm_num) (by norm_num)
  have hh : hexDecode "" = some [] := rfl
  refine ⟨?_, rfl, by decide, by decide, by decide⟩
  simp only [json_to_transaction, wrapRec, wrapTx, decodeInputs, decodeOutputs,
    decodeTxOut, ha, ha5, hh]

/-- C6 (the code evaluated at the failing input): a batch whose two
outputs of 2^63 satoshis each pass decoding individually, yet the
builder returns success with the wrapped value 0 instead of reporting
the 2^64 output sum as an overflow error. -/
theorem builder_overflow_not_reported :
    json_to_transaction [ovRec] = .ok [ovTx] ∧
    create_outputgroup rngId 4 [ovTx] = some [outputGroupOf ovTx 0] ∧
    (outputGroupOf ovTx 0).value = 0 ∧
    (ovTx.output.map TxOut.value).sum = 2 ^ 64 := by
  have ha : Amount_from_btc ovBtc = some (2 ^ 63) :=
    Amount_from_btc_eval _ _ (by norm_num [ovBtc]) (by norm_num)
  have hh : hexDecode "" = some [] := rfl
  refine ⟨?_, rfl, by decide, by decide⟩
  simp only [json_to_transaction, ovRec, ovTx, decodeInputs, decodeOutputs,
    decodeTxOut, ha, hh]

/-- C3 (amended): a decoding failure aborts the whole batch — no list of
transactions is produced — and the run executes zero selection trials. -/
theorem decode_failure_aborts (stream : Nat → Nat) (fuel : Nat) (rI : Nat → Nat)
    (rF : Nat → ℚ) (sel : SelectFn) (records : List TransactionJson) (e : DecodeErr)
    (h : json_to_transaction records = .error e) :
    mainRun stream fuel rI rF sel records = none ∧
    ∀ txs, json_to_transaction records ≠ .ok txs := by
  constructor
  · simp [mainRun, h]
  · intro txs hcontra
    rw [h] at hcontra
    exact Except.noConfusion hcontra

/-- Witness for C3: on the odd-length-script batch the whole pipeline
stops before any trial. -/
theorem decode_failure_aborts_witness :
    mainRun rngId 4 rngZero rfZero selStub [badSigRec] = none :=
  (decode_failure_aborts rngId 4 rngZero rfZero selStub [badSigRec]
    (.hexToBytes "abc") rfl).1

/-- C3 falsified as stated: the propagated error value is identical
whether the odd-length script sits in record 0 or record 1, and whether
it is an input script or an output script — so the error identifies
neither the record index nor the offending field. -/
theorem decode_error_lacks_locator :
    json_to_transaction [badSigRec] = .error (.hexToBytes "abc") ∧
    json_to_transaction [goodRec, badSigRec] = .error (.hexToBytes "abc") ∧
    json_to_transaction [badSpkRec] = .error (.hexToBytes "abc") := by
  have ha0 : Amount_from_btc 0 = some 0 :=
    Amount_from_btc_eval 0 0 (by norm_num) (by norm_num)
  have hx : hexDecode "abc" = none := rfl
  refine ⟨rfl, rfl, ?_⟩
  simp only [json_to_transaction, badSpkRec, decodeInputs, decodeOutputs,
    decodeTxOut, ha0, hx]

/-- C8 (amended): the configuration generator always produces exactly
five configurations, for every random source. -/
theorem create_select_options_count (rI : Nat → Nat) (rF : Nat → ℚ) :
    (create_select_options rI rF).length = 5 := by
  simp [create_select_options]

/-- C8 falsified as stated: the count is five under any random source —
the generator's only input — so no input configures a different count;
the loop bound is the hard-coded literal 5. -/
theorem create_select_options_count_fixed :
    (create_select_options rngZero rfZero).length = 5 ∧
    (create_select_options rngId rfCe).length = 5 :=
  ⟨by simp [create_select_options], by simp [create_select_options]⟩

/-- Integer gen_range stays inside its half-open range. -/
theorem genRange_bounds (r lo hi : Nat) (h : lo < hi) :
    lo ≤ genRange r lo hi ∧ genRange r lo hi < hi := by
  unfold genRange
  have hmod := Nat.mod_lt r (show 0 < hi - lo by omega)
  omega

/-- Floating gen_range stays inside its half-open range. -/
theorem genRangeQ_bounds (r lo hi : ℚ) (h : lo < hi) :
    lo ≤ genRangeQ r lo hi ∧ genRangeQ r lo hi < hi := by
  unfold genRangeQ
  have h0 := Int.fract_nonneg r
  have h1 := Int.fract_lt_one r
  constructor
  · nlinarith
  · nlinarith

/-- Round-to-nearest-even lands on the floor or the floor plus one. -/
theorem roundHalfEven_bounds (r : ℚ) :
    ⌊r⌋ ≤ roundHalfEven r ∧ roundHalfEven r ≤ ⌊r⌋ + 1 := by
  unfold roundHalfEven
  split_ifs <;> omega

/-- Any integer upper bound on the operand bounds the rounding. -/
theorem roundHalfEven_le_of_lt (r : ℚ) (K : ℤ) (hK : r < (K : ℚ)) :
    roundHalfEven r ≤ K := by
  obtain ⟨h1, h2⟩ := roundHalfEven_bounds r
  have := Int.floor_lt.mpr hK
  omega

/-- Any integer lower bound on the operand bounds the rounding. -/
theorem le_roundHalfEven_of_le (r : ℚ) (L : ℤ) (hL : (L : ℚ) ≤ r) :
    L ≤ roundHalfEven r := by
  obtain ⟨h1, h2⟩ := roundHalfEven_bounds r
  have := Int.le_floor.mpr hL
  omega

/-- The f32 rounding of an operand in the fee-rate range stays between 1
and 5 inclusive: the cast cannot fall below the lower bound, but it can
land exactly on the excluded upper bound. -/
theorem f32Round_bounds (q : ℚ) (h1 : 1 ≤ q) (h5 : q < 5) :
    1 ≤ f32Round q ∧ f32Round q ≤ 5 := by
  have hq : ¬ q < 1 := not_lt.mpr h1
  simp only [f32Round, if_neg hq]
  have hfl1 : (1 : ℤ) ≤ ⌊q⌋ := Int.le_floor.mpr (by exact_mod_cast h1)
  have hfl4 : ⌊q⌋ ≤ 4 := by
    have : ⌊q⌋ < 5 := Int.floor_lt.mpr (by exact_mod_cast h5)
    omega
  set n := ⌊q⌋.toNat with hn
  have hn1 : 1 ≤ n := by omega
  have hn4 : n ≤ 4 := by omega
  have hqlo : ((⌊q⌋ : ℚ)) ≤ q := Int.floor_le q
  have hqhi : q < (⌊q⌋ : ℚ) + 1 := Int.lt_floor_add_one q
  interval_cases n
  · -- floor 1, exponent 0
    have hf : ⌊q⌋ = 1 := by omega
    rw [hf] at hqlo hqhi
    simp only [show natLog2 1 = 0 from rfl]
    norm_num at hqlo hqhi ⊢
    have hmL : (8388608 : ℤ) ≤ roundHalfEven (q * 8388608) :=
      le_roundHalfEven_of_le _ _ (by push_cast; nlinarith)
    have hmK : roundHalfEven (q * 8388608) ≤ 16777216 :=
      roundHalfEven_le_of_lt _ _ (by push_cast; nlinarith)
    have hcL : (8388608 : ℚ) ≤ (roundHalfEven (q * 8388608) : ℚ) := by
      exact_mod_cast hmL
    have hcK : (roundHalfEven (q * 8388608) : ℚ) ≤ (16777216 : ℚ) := by
      exact_mod_cast hmK
    constructor <;> linarith
  · -- floor 2, exponent 1
    have hf : ⌊q⌋ = 2 := by omega
    rw [hf] at hqlo hqhi
    simp only [show natLog2 2 = 1 from rfl]
    norm_num at hqlo hqhi ⊢
    have hmL : (8388608 : ℤ) ≤ roundHalfEven (q * 4194304) :=
      le_roundHalfEven_of_le _ _ (by push_cast; nlinarith)
    have hmK : roundHalfEven (q * 4194304) ≤ 12582912 :=
      roundHalfEven_le_of_lt _ _ (by push_cast; nlinarith)
    have hcL : (8388608 : ℚ) ≤ (roundHalfEven (q * 4194304) : ℚ) := by
      exact_mod_cast hmL
    have hcK : (roundHalfEven (q * 4194304) : ℚ) ≤ (12582912 : ℚ) := by
      exact_mod_cast hmK
    constructor <;> linarith
  · -- floor 3, exponent 1
    have hf : ⌊q⌋ = 3 := by omega
    rw [hf] at hqlo hqhi
    simp only [show natLog2 3 = 1 from rfl]
    norm_num at hqlo hqhi ⊢
    have hmL : (12582912 : ℤ) ≤ roundHalfEven (q * 4194304) :=
      le_roundHalfEven_of_le _ _ (by push_cast; nlinarith)
    have hmK : roundHalfEven (q * 4194304) ≤ 16777216 :=
      roundHalfEven_le_of_lt _ _ (by push_cast; nlinarith)
    have hcL : (12582912 : ℚ) ≤ (roundHalfEven (q * 4194304) : ℚ) := by
      exact_mod_cast hmL
    have hcK : (roundHalfEven (q * 4194304) : ℚ) ≤ (16777216 : ℚ) := by
      exact_mod_cast hmK
    constructor <;> linarith
  · -- floor 4, exponent 2
    have hf : ⌊q⌋ = 4 := by omega
    rw [hf] at hqlo
    simp only [show natLog2 4 = 2 from rfl]
    norm_num at hqlo ⊢
    have hmL : (8388608 : ℤ) ≤ roundHalfEven (q * 2097152) :=
      le_roundHalfEven_of_le _ _ (by push_cast; nlinarith)
    have hmK : roundHalfEven (q * 2097152) ≤ 10485760 :=
      roundHalfEven_le_of_lt _ _ (by push_cast; nlinarith)
    have hcL : (8388608 : ℚ) ≤ (roundHalfEven (q * 2097152) : ℚ) := by
      exact_mod_cast hmL
    have hcK : (roundHalfEven (q * 2097152) : ℚ) ≤ (10485760 : ℚ) := by
      exact_mod_cast hmK
    constructor <;> linarith

/-- C5 (amended): every field of every generated configuration lies in
its documented range, except that the target fee rate range is closed
at the top — the f32 cast of an f64 draw from the half-open range
1.0..5.0 can round up to exactly 5.0 (see the counterexample). -/
theorem create_select_options_bounds (rI : Nat → Nat) (rF : Nat → ℚ)
    (cfg : CoinSelectionOpt) (h : cfg ∈ create_select_options rI rF) :
    (40000 ≤ cfg.target_value ∧ cfg.target_value < 5000000000) ∧
    (1 ≤ cfg.target_feerate ∧ cfg.target_feerate ≤ 5) ∧
    (∃ l, cfg.long_term_feerate = some l ∧ 1 ≤ l ∧ l < 10) ∧
    (1 ≤ cfg.min_absolute_fee ∧ cfg.min_absolute_fee < 20) ∧
    (1 ≤ cfg.base_weight ∧ cfg.base_weight < 30) ∧
    (5 ≤ cfg.change_weight ∧ cfg.change_weight < 30) ∧
    (1 ≤ cfg.change_cost ∧ cfg.change_cost < 20) ∧
    (1 ≤ cfg.avg_input_weight ∧ cfg.avg_input_weight < 10) ∧
    (1 ≤ cfg.avg_output_weight ∧ cfg.avg_output_weight < 10) ∧
    (100 ≤ cfg.min_change_value ∧ cfg.min_change_value < 1000) ∧
    (cfg.excess_strategy = ExcessStrategy.ToChange ∨
      cfg.excess_strategy = ExcessStrategy.ToFee ∨
      cfg.excess_strategy = ExcessStrategy.ToRecipient) := by
  simp only [create_select_options, List.mem_map, List.mem_range] at h
  obtain ⟨i, _, rfl⟩ := h
  refine ⟨genRange_bounds _ _ _ (by norm_num), ?_, ?_, genRange_bounds _ _ _ (by norm_num),
    genRange_bounds _ _ _ (by norm_num), genRange_bounds _ _ _ (by norm_num),
    genRange_bounds _ _ _ (by norm_num), genRange_bounds _ _ _ (by norm_num),
    genRange_bounds _ _ _ (by norm_num), genRange_bounds _ _ _ (by norm_num), ?_⟩
  · obtain ⟨hlo, hhi⟩ := genRangeQ_bounds (rF i) 1 5 (by norm_num)
    exact f32Round_bounds _ hlo hhi
  · obtain ⟨hlo, hhi⟩ := genRange_bounds (rI (10 * i + 2)) 1 10 (by norm_num)
    exact ⟨_, rfl, by exact_mod_cast hlo, by exact_mod_cast hhi⟩
  · rcases hmod : rI (10 * i) % 3 with _ | _ | m <;> simp [hmod]

/-- Witness for C5: the first configuration generated from the
constant-zero random source respects the bounds. -/
theorem create_select_options_bounds_witness :
    40000 ≤ ((create_select_options rngZero rfZero).get
      ⟨0, by simp [create_select_options]⟩).target_value ∧
    1 ≤ ((create_select_options rngZero rfZero).get
      ⟨0, by simp [create_select_options]⟩).target_feerate ∧
    ((create_select_options rngZero rfZero).get
      ⟨0, by simp [create_select_options]⟩).target_feerate ≤ 5 := by
  obtain ⟨⟨h1, _⟩, ⟨h2, h3⟩, _⟩ :=
    create_select_options_bounds rngZero rfZero _ (List.get_mem _ _ _)
  exact ⟨h1, h2, h3⟩

/-- C5 falsified as stated: the float stream drawing 1 - 2^-32 puts the
f64 fee rate at 5 - 2^-30, inside the half-open range 1.0..5.0, but the
stored f32 target fee rate is exactly 5 — outside the documented
half-open range. -/
theorem target_feerate_hits_upper_bound :
    ((create_select_options rngZero rfCe).get
      ⟨0, by simp [create_select_options]⟩).target_feerate = 5 := by
  have hstep : ((create_select_options rngZero rfCe).get
      ⟨0, by simp [create_select_options]⟩).target_feerate
      = f32Round (genRangeQ ((4294967295 : ℚ) / 4294967296) 1 5) := rfl
  rw [hstep]
  have hfr : Int.fract ((4294967295 : ℚ) / 4294967296)
      = (4294967295 : ℚ) / 4294967296 :=
    Int.fract_eq_self.mpr ⟨by norm_num, by norm_num⟩
  have hq : genRangeQ ((4294967295 : ℚ) / 4294967296) 1 5
      = (5368709119 : ℚ) / 1073741824 := by
    unfold genRangeQ
    rw [hfr]
    norm_num
  rw [hq]
  have hfl : ⌊(5368709119 : ℚ) / 1073741824⌋ = 4 := by norm_num
  simp only [f32Round, hfl]
  rw [if_neg (by norm_num)]
  simp only [show ((4 : ℤ)).toNat = 4 from rfl, show natLog2 4 = 2 from rfl]
  have hr : (5368709119 : ℚ) / 1073741824 * 2 ^ ((23 : ℤ) - (2 : ℕ))
      = (5368709119 : ℚ) / 512 := by norm_num
  rw [hr]
  have hfl2 : ⌊(5368709119 : ℚ) / 512⌋ = 10485759 := by norm_num
  have hfr2 : Int.fract ((5368709119 : ℚ) / 512) = 511 / 512 := by
    rw [Int.fract, hfl2]
    norm_num
  simp only [roundHalfEven, hfr2, hfl2]
  rw [if_neg (by norm_num), if_pos (by norm_num)]
  norm_num

/-- C7: decoding a non-negative whole-unit amount that is exactly
representable at minor-unit (satoshi) resolution yields its exact
minor-unit integer, re-encoding that integer reproduces the amount, and
decoding again returns the identical minor-unit integer. -/
theorem amount_roundtrip (d : ℚ) (h0 : 0 ≤ d) (h1 : (d * 100000000).den = 1)
    (h2 : d * 100000000 < 2 ^ 64) :
    Amount_from_btc d = some (d * 100000000).num.toNat ∧
    Amount_to_btc (d * 100000000).num.toNat = d ∧
    Amount_from_btc (Amount_to_btc (d * 100000000).num.toNat)
      = some (d * 100000000).num.toNat := by
  have hnum : (((d * 100000000).num : ℚ)) = d * 100000000 := by
    conv_rhs => rw [← Rat.num_div_den (d * 100000000)]
    rw [h1]
    simp
  have hpos : 0 ≤ (d * 100000000).num :=
    Rat.num_nonneg.mpr (mul_nonneg h0 (by norm_num))
  have htn : (((d * 100000000).num.toNat : ℕ) : ℚ) = d * 100000000 := by
    rw [← hnum]
    exact_mod_cast Int.toNat_of_nonneg hpos
  have hback : Amount_to_btc (d * 100000000).num.toNat = d := by
    unfold Amount_to_btc
    rw [htn]
    field_simp
  have hfwd : Amount_from_btc d = some (d * 100000000).num.toNat := by
    unfold Amount_from_btc
    rw [if_pos ⟨h0, h1, h2⟩]
  exact ⟨hfwd, hback, by rw [hback]; exact hfwd⟩

/-- Witness for C7: one satoshi, written as 0.00000001 whole units,
round-trips on the identical minor-unit integer. -/
theorem amount_roundtrip_witness :
    Amount_from_btc ((1 : ℚ) / 100000000)
      = some (((1 : ℚ) / 100000000) * 100000000).num.toNat ∧
    Amount_to_btc (((1 : ℚ) / 100000000) * 100000000).num.toNat
      = (1 : ℚ) / 100000000 := by
  obtain ⟨ha, hb, _⟩ := amount_roundtrip ((1 : ℚ) / 100000000) (by norm_num)
    (by rw [show (1 : ℚ) / 100000000 * 100000000 = 1 by norm_num]; rfl)
    (by norm_num)
  exact ⟨ha, hb⟩

/-- C10: every transaction the decoder reconstructs carries version 2
and lock time 0 regardless of the input records, and each OutputGroup
weight the builder computes is the canonical serialized byte size of
that fixed-form transaction, cast to u32. -/
theorem decoded_txs_fixed_form (records : List TransactionJson)
    (txs : List Transaction) (stream : Nat → Nat) (fuel : Nat)
    (gs : List OutputGroup)
    (hd : json_to_transaction records = .ok txs)
    (hb : create_outputgroup stream fuel txs = some gs) :
    (∀ tx ∈ txs, tx.version = 2 ∧ tx.lock_time = 0) ∧
    ∀ k, ∀ hk : k < gs.length, ∀ hk2 : k < txs.length,
      (gs.get ⟨k, hk⟩).weight = total_size (txs.get ⟨k, hk2⟩) % 2 ^ 32 := by
  refine ⟨json_to_transaction_fixed_form records txs hd, ?_⟩
  intro k hk hk2
  cases txs with
  | nil => exact absurd hk2 (by simp)
  | cons tx rest =>
    obtain ⟨_, _, _, hpos⟩ :=
      create_outputgroup_go_spec stream (tx :: rest).length fuel (by simp) _ _ _ _ hb
    obtain ⟨c, hc⟩ := hpos k hk hk2
    rw [hc]
    rfl

/-- Witness for C10: a fully populated record decodes to the fixed-form
transaction with version 2 and lock time 0, and its group weight is the
serialized byte size. -/
theorem decoded_txs_fixed_form_witness :
    wTx.version = 2 ∧ wTx.lock_time = 0 ∧
    (outputGroupOf wTx 0).weight = total_size wTx % 2 ^ 32 := by
  have ha : Amount_from_btc ((1 : ℚ) / 2) = some 50000000 :=
    Amount_from_btc_eval _ _ (by norm_num) (by norm_num)
  have h1 : txid_from_str zeros64 = some (List.replicate 32 0) := by decide
  have h2 : hexDecode "51" = some [81] := rfl
  have h3 : sequence_from_hex "ffffffff" = some 4294967295 := rfl
  have hd : json_to_transaction [wRec] = .ok [wTx] := by
    simp only [json_to_transaction, wRec, wTx, decodeInputs, decodeTxIn,
      decodeOutputs, decodeTxOut, ha, h1, h2, h3]
  have hb : create_outputgroup rngId 4 [wTx] = some [outputGroupOf wTx 0] := rfl
  obtain ⟨hvl, hw⟩ := decoded_txs_fixed_form [wRec] [wTx] rngId 4
    [outputGroupOf wTx 0] hd hb
  have h0 := hvl wTx (by simp)
  exact ⟨h0.1, h0.2, hw 0 (by simp) (by simp)⟩
